import Mathlib

/-!
# Verification of the rolling-window DeepAR notebook core

Shallow embedding of the local logic of
`src/scripts/DeepAR-BloombergFDIWorkshop.ipynb`:

* the leading-zero trim applied to each resampled column
  (`np.trim_zeros(..., trim='f')`),
* the training / rolling-test window construction (`training_data`,
  `test_data` cells; pandas label slicing on a monotone `DatetimeIndex`
  is *inclusive* of both bounds),
* the S3 upload guard (`copy_to_s3`),
* the request encoder (`series_to_dict`, `encode_target`,
  `DeepARPredictor.__encode_request`) and the response decoder
  (`DeepARPredictor.__decode_response`),
* the report merge (`right.append(right2)` followed by
  `pd.merge(left, right, how='outer', on='time')`).

Timestamps are modelled as natural numbers counting frequency ticks
(the notebook's series all live on the hourly grid produced by
`resample('1H')`, and `Timestamp ± k` moves by `k` ticks of the
attached frequency).  Values are modelled by `PVal`, which keeps the
distinctions the notebook relies on: finite floats, NaN and the two
infinities (floating-point rounding plays no role in any claim).
-/

namespace FDI

/-- A Python float as the notebook observes it: a finite rational,
not-a-number, or an infinity.  `nan` is the missing marker. -/
inductive PVal where
  | fin : ℚ → PVal
  | nan : PVal
  | inf : PVal
  | ninf : PVal
deriving DecidableEq

/-- Models `np.isfinite x` for a `PVal`. -/
def PVal.isFinite : PVal → Bool
  | .fin _ => true
  | _ => false

/-- The rational carried by a finite `PVal` (junk value `0` otherwise;
only ever used under an `isFinite` guard, as in the source). -/
def PVal.toRat : PVal → ℚ
  | .fin q => q
  | _ => 0

/-- Python's `x != 0.` on a float: `False` exactly on the finite zero.
`nan != 0.` is `True` (IEEE comparison), as are both infinities;
this is the test `np.trim_zeros` uses to stop trimming. -/
def pyNeZero : PVal → Bool
  | .fin q => decide (q ≠ 0)
  | _ => true

/-! ## Series Preparer: `np.trim_zeros(series, trim='f')`

`numpy.trim_zeros` with `trim='f'` walks the sequence from the front,
incrementing a counter while the element compares `== 0.` (it breaks as
soon as `elem != 0.` holds), and returns `filt[first:]`. -/

/-- The number of leading elements `np.trim_zeros(trim='f')` drops:
it counts until the first element with `elem != 0.`. -/
def trim_front_count : List PVal → Nat
  | [] => 0
  | x :: xs => if pyNeZero x then 0 else trim_front_count xs + 1

/-- Models `np.trim_zeros(filt, trim='f')`, which returns `filt[first:]`. -/
def trim_zeros_front (l : List PVal) : List PVal :=
  l.drop (trim_front_count l)

/-! ## Window Builder

A series is a list of (timestamp, value) pairs; the notebook's series
have strictly increasing timestamps (a pandas index after `resample`).
`ts[a:b]` on a monotone `DatetimeIndex` is label-based slicing and
keeps every element with `a ≤ t ≤ b` — inclusive of *both* endpoints
(the notebook's own comment on the training cell: "We use -1, because
pandas indexing includes the upper bound"). -/

abbrev TimePoint := Nat × PVal

/-- pandas label slice `ts[a:b]` on a monotone index: all points whose
timestamp lies in the closed interval `[a, b]`, in series order. -/
def sliceIncl (ts : List TimePoint) (a b : Nat) : List TimePoint :=
  ts.filter (fun p => decide (a ≤ p.1 ∧ p.1 ≤ b))

/-- The timepoints selected by the training cell:
`ts[start_dataset : end_training - 1]` (one tick below the cutoff,
inclusive). -/
def training_window_slice (ts : List TimePoint) (start endTraining : Nat) :
    List TimePoint :=
  sliceIncl ts start (endTraining - 1)

/-- The `target` list the training cell serialises. -/
def training_data_target (ts : List TimePoint) (start endTraining : Nat) :
    List PVal :=
  (training_window_slice ts start endTraining).map (·.2)

/-- The timepoints selected by the test cell for one series:
for `k = 1..num_test_windows`,
`ts[start_dataset : end_training + k * prediction_length]`. -/
def test_window_slices (ts : List TimePoint)
    (start endTraining horizon n : Nat) : List (List TimePoint) :=
  (List.range n).map (fun i => sliceIncl ts start (endTraining + (i + 1) * horizon))

/-- The `target` lists the test cell serialises for one series. -/
def test_data_targets (ts : List TimePoint)
    (start endTraining horizon n : Nat) : List (List PVal) :=
  (test_window_slices ts start endTraining horizon n).map (·.map (·.2))

/-- The training cell as a fallible computation: `Except.error` would
model a raised Python exception.  Label slicing on a monotone index
never raises, whatever the bounds, so the cell always succeeds. -/
def build_training_window (ts : List TimePoint) (start endTraining : Nat) :
    Except String (List TimePoint) :=
  Except.ok (training_window_slice ts start endTraining)

/-- The test cell as a fallible computation; it likewise never raises. -/
def build_test_windows (ts : List TimePoint)
    (start endTraining horizon n : Nat) :
    Except String (List (List TimePoint)) :=
  Except.ok (test_window_slices ts start endTraining horizon n)

/-- Holds when `a` extended by some tail gives `b` (i.e. `a` is an initial
segment of `b`). -/
def extendsTo {α : Type} (a b : List α) : Prop :=
  ∃ u, a ++ u = b

/-! ## Storage collaborator: `copy_to_s3`

The bucket is an association list from key to object bytes, in
insertion order.  The guard in the source is
`len(list(buk.objects.filter(Prefix=path))) > 0`: an S3 *key-prefix*
listing, not an exact-key existence check. -/

abbrev Store := List (String × List Nat)

/-- Does `key` begin with the characters of `pre`? -/
def charsStartWith : List Char → List Char → Bool
  | [], _ => true
  | _ :: _, [] => false
  | a :: as, b :: bs => a == b && charsStartWith as bs

/-- Models `bucket.objects.filter(Prefix=path)`: every stored object whose
key starts with `path`. -/
def objectsWithKeyStart (store : Store) (path : String) : Store :=
  store.filter (fun kv => charsStartWith path.data kv.1.data)

/-- Models `bucket.put_object(Key=path, Body=data)`: writes the object,
replacing any object already stored under exactly that key. -/
def putObject (store : Store) (path : String) (body : List Nat) : Store :=
  store.filter (fun kv => !(kv.1 == path)) ++ [(path, body)]

/-- Models `copy_to_s3(local_file, s3_path, override)` restricted to its
bucket effect: if the prefix listing is non-empty and `override` is
false, print a warning and return without writing; otherwise upload. -/
def copy_to_s3 (store : Store) (path : String) (body : List Nat)
    (override : Bool) : Store :=
  if 0 < (objectsWithKeyStart store path).length then
    if override then putObject store path body else store
  else putObject store path body

/-! ## Forecast Client Protocol: encoding -/

/-- A JSON value, as far as the notebook's wire format needs one. -/
inductive JVal where
  | num : ℚ → JVal
  | str : String → JVal
  | int : Int → JVal
  | arr : List JVal → JVal
  | obj : List (String × JVal) → JVal

/-- Models `encode_target(ts)`: `[x if np.isfinite(x) else "NaN" for x in ts]`,
then serialised by `json.dumps` — a finite float becomes a JSON
number, anything non-finite becomes the literal string `"NaN"`. -/
def encode_target (ts : List PVal) : List JVal :=
  ts.map (fun x => if x.isFinite then JVal.num x.toRat else JVal.str "NaN")

/-- Models `series_to_dict(ts, cat, dynamic_feat)`: builds the instance dict
with keys in insertion order; `cat` and `dynamic_feat` keys are added
only when the argument is not `None`. -/
def series_to_dict (ts : List TimePoint) (cat : Option Int)
    (dynamic_feat : Option (List (List ℚ))) : List (String × JVal) :=
  [("start", JVal.str (toString ((ts.map (·.1)).headD 0))),
   ("target", JVal.arr (encode_target (ts.map (·.2))))]
  ++ (match cat with
      | some c => [("cat", JVal.int c)]
      | none => [])
  ++ (match dynamic_feat with
      | some f => [("dynamic_feat",
          JVal.arr (f.map (fun row => JVal.arr (row.map JVal.num))))]
      | none => [])

/-- Python's `dynamic_feat if dynamic_feat else None` on a
list-or-None argument: `None` *and the empty list* are falsy, so both
collapse to `None`. -/
def pyTruthyFeat (df : Option (List (List ℚ))) : Option (List (List ℚ)) :=
  match df with
  | some (f :: fs) => some (f :: fs)
  | _ => none

/-- Models `DeepARPredictor.__encode_request`: the full request object.
`cat if cat is not None else None` is the identity on an optional
value and is reflected as such; the dynamic-feature argument goes
through the truthiness collapse. -/
def encode_request (ts : List TimePoint) (cat : Option Int)
    (dynamic_feat : Option (List (List ℚ))) (num_samples : Int)
    (return_samples : Bool) (quantiles : List String) : JVal :=
  JVal.obj
    [("instances",
      JVal.arr [JVal.obj (series_to_dict ts cat (pyTruthyFeat dynamic_feat))]),
     ("configuration", JVal.obj
        [("num_samples", JVal.int num_samples),
         ("output_types", JVal.arr (if return_samples
            then [JVal.str "quantiles", JVal.str "samples"]
            else [JVal.str "quantiles"])),
         ("quantiles", JVal.arr (quantiles.map JVal.str))])]

/-! ## Forecast Client Protocol: decoding -/

/-- One parsed prediction object of the service response.
`quantiles` is the response's `"quantiles"` JSON object as an ordered
association list; `samples` models the `"samples"` key — `none` for an
absent key, `some []` for a key present with an empty array. -/
structure Pred where
  quantiles : List (String × List ℚ)
  samples : Option (List (List ℚ))
deriving DecidableEq

/-- The decoded result: a pandas `DataFrame` with a time index and one
column per quantile level / sample path. -/
structure Frame where
  index : List Nat
  cols : List (String × List ℚ)
deriving DecidableEq

/-- Models `pd.DataFrame(data=cols, index=index)`: pandas raises `ValueError`
unless every column array has the same length as the index. -/
def mkDataFrame (cols : List (String × List ℚ)) (index : List Nat) :
    Except String Frame :=
  if cols.all (fun c => c.2.length == index.length) then
    Except.ok ⟨index, cols⟩
  else
    Except.error "ValueError: arrays must all be same length"

/-- Models `{'sample_' + str(i): s for i, s in enumerate(samples)}`. -/
def enumSamples (ss : List (List ℚ)) : List (String × List ℚ) :=
  ss.enum.map (fun p => ("sample_" ++ toString p.1, p.2))

/-- Models `DeepARPredictor.__decode_response(response, freq, prediction_time,
return_samples)`.  Steps of the source, in order: take
`predictions[0]` (IndexError on an empty list), derive
`prediction_length` from the first quantile array
(`next(iter(...))` — StopIteration on an empty dict), build the
prediction index as `prediction_length` consecutive ticks from
`prediction_time`, read `predictions['samples']` only when
`return_samples` is set (KeyError when the key is absent), and
finally build the `DataFrame` from the quantile columns followed by
the sample columns. -/
def decode_response (preds : List Pred) (prediction_time : Nat)
    (return_samples : Bool) : Except String Frame :=
  match preds with
  | [] => Except.error "IndexError: list index out of range"
  | predictions :: _ =>
    match predictions.quantiles with
    | [] => Except.error "StopIteration"
    | firstQuantile :: _ =>
      let prediction_length := firstQuantile.2.length
      let prediction_index :=
        (List.range prediction_length).map (fun i => prediction_time + i)
      match (if return_samples then
          match predictions.samples with
          | none => Except.error "KeyError: samples"
          | some ss => Except.ok (enumSamples ss)
        else Except.ok ([] : List (String × List ℚ))) with
      | Except.error msg => Except.error msg
      | Except.ok dict_of_samples =>
        mkDataFrame (predictions.quantiles ++ dict_of_samples) prediction_index

/-- Modelled from the spec: the decoding of one target entry on the
consumer side.  The repository contains no decoder for targets (the
managed service consumes them; only responses are decoded locally),
and the spec requires that the missing-marker token reconstitute a
missing value, never zero, while numbers reconstitute themselves. -/
def decode_target_entry : JVal → PVal
  | JVal.num q => PVal.fin q
  | _ => PVal.nan

/-! ## Merge/report step -/

/-- A merged row: timestamp, ground-truth price when present, and the
forecast row's quantile cells when present (`none` models pandas
filling the absent side with NaN). -/
abbrev MergedRow := Nat × Option ℚ × Option (List ℚ)

/-- Models `right.append(right2)`: plain row concatenation, no dedup. -/
def appendRows (r r2 : List (Nat × List ℚ)) : List (Nat × List ℚ) :=
  r ++ r2

/-- The block of output rows `pd.merge(..., how='outer', on='time')`
emits for one key `t`: every matching left/right row pair, or the rows
of the one side holding `t`, NaN-filled on the other side. -/
def rowsForKey (left : List (Nat × ℚ)) (right : List (Nat × List ℚ))
    (t : Nat) : List MergedRow :=
  match left.filter (fun l => l.1 == t), right.filter (fun r => r.1 == t) with
  | [], rs => rs.map (fun r => (t, none, some r.2))
  | ls, [] => ls.map (fun l => (t, some l.2, none))
  | ls, rs => ls.flatMap (fun l => rs.map (fun r => (t, some l.2, some r.2)))

/-- Models `pd.merge(left, right, how='outer', on='time')` as the notebook's
pandas performs it: the union of the two key sets, sorted ascending,
each key contributing its block of matched rows. -/
def mergeOuter (left : List (Nat × ℚ)) (right : List (Nat × List ℚ)) :
    List MergedRow :=
  (List.insertionSort (· ≤ ·) ((left.map (·.1) ++ right.map (·.1)).dedup)).flatMap
    (rowsForKey left right)

/-- Number of rows of a merged table carrying timestamp `t`. -/
def countKey (t : Nat) (rows : List MergedRow) : Nat :=
  rows.countP (fun row => row.1 == t)

/-- A small concrete hourly series used by the concrete witnesses. -/
def exTs : List TimePoint :=
  [(0, PVal.fin 1), (1, PVal.fin 2), (2, PVal.fin 3), (3, PVal.fin 4)]

/-! # Theorems -/

/-! ## Series Preparer (claim C3) -/

/-- The trim `np.trim_zeros(l, trim='f')` drops exactly the longest leading run
of elements comparing `== 0.`. -/
theorem trim_zeros_front_eq_dropWhile (l : List PVal) :
    trim_zeros_front l = l.dropWhile (fun x => !pyNeZero x) := by
  induction l with
  | nil => rfl
  | cons x xs ih =>
    by_cases hx : pyNeZero x = true
    · simp [trim_zeros_front, trim_front_count, hx]
    · simp only [Bool.not_eq_true] at hx
      simp only [trim_zeros_front, trim_front_count, hx, Bool.false_eq_true,
        if_false, List.drop_succ_cons, List.dropWhile_cons, Bool.not_false,
        if_true]
      exact ih

/-- The head of `dropWhile p l`, when it exists, falsifies `p`. -/
theorem head?_dropWhile_pred {α : Type} {p : α → Bool} (l : List α) (x : α)
    (h : (l.dropWhile p).head? = some x) : p x = false := by
  induction l with
  | nil => simp [List.dropWhile] at h
  | cons y ys ih =>
    by_cases hy : p y = true
    · rw [List.dropWhile_cons_of_pos hy] at h
      exact ih h
    · rw [List.dropWhile_cons_of_neg hy] at h
      simp only [List.head?_cons, Option.some.injEq] at h
      subst h
      exact Bool.eq_false_iff.mpr hy

/-- Claim C3 (amended).  For every series `S`, the front trim of the
notebook (`np.trim_zeros(S, trim='f')`) removes exactly the maximal
leading run of values comparing `== 0.`; everything from the first
value with `x != 0.` onward — interior zeros included — is preserved
unchanged; the head of a non-empty result satisfies `x != 0.` (which a
missing value also satisfies, so the head may be missing); a series
whose values all compare `== 0.` trims to empty; and the two concrete
spec scenarios hold. -/
theorem trim_leading_spec (S : List PVal) :
    S.takeWhile (fun x => !pyNeZero x) ++ trim_zeros_front S = S
    ∧ (∀ x, (trim_zeros_front S).head? = some x → pyNeZero x = true)
    ∧ ((∀ x ∈ S, pyNeZero x = false) → trim_zeros_front S = [])
    ∧ trim_zeros_front
        [PVal.fin 1, PVal.fin 2, PVal.fin 0, PVal.fin 0, PVal.fin 3, PVal.fin 4]
      = [PVal.fin 1, PVal.fin 2, PVal.fin 0, PVal.fin 0, PVal.fin 3, PVal.fin 4]
    ∧ trim_zeros_front
        [PVal.fin 0, PVal.fin 0, PVal.fin 1, PVal.fin 2, PVal.fin 0, PVal.fin 3]
      = [PVal.fin 1, PVal.fin 2, PVal.fin 0, PVal.fin 3] := by
  refine ⟨?_, ?_, ?_, by decide, by decide⟩
  · rw [trim_zeros_front_eq_dropWhile]
    exact List.takeWhile_append_dropWhile _ _
  · intro x h
    rw [trim_zeros_front_eq_dropWhile] at h
    have hx := head?_dropWhile_pred _ _ h
    simpa using hx
  · intro hall
    rw [trim_zeros_front_eq_dropWhile, List.dropWhile_eq_nil_iff]
    intro x hx
    simp [hall x hx]

/-- Claim C3 witness: the trim theorem applied to the spec's own
scenario series. -/
theorem trim_leading_spec_witness :
    trim_zeros_front
        [PVal.fin 0, PVal.fin 0, PVal.fin 1, PVal.fin 2, PVal.fin 0, PVal.fin 3]
      = [PVal.fin 1, PVal.fin 2, PVal.fin 0, PVal.fin 3] :=
  (trim_leading_spec
    [PVal.fin 0, PVal.fin 0, PVal.fin 1, PVal.fin 2, PVal.fin 0, PVal.fin 3]).2.2.2.2

/-- Claim C3, counterexample to the claim as stated: missing values are
*not* trim-worthy for `np.trim_zeros` (NaN `!= 0.` is true).  The
series `[NaN, 1]` is returned with its missing head intact, although
the claim requires a non-missing first element; and the entirely
missing series `[NaN]` is returned unchanged, although the claim
requires the empty series. -/
theorem trim_leading_claim_cex :
    trim_zeros_front [PVal.nan, PVal.fin 1] = [PVal.nan, PVal.fin 1]
    ∧ trim_zeros_front [PVal.nan] = [PVal.nan] := by decide

/-! ## Window Builder (claims C1, C5, C7) -/

/-- A slice whose upper bound lies below every timestamp of the series
is empty. -/
theorem sliceIncl_nil_of_gt (xs : List TimePoint) (a b : Nat)
    (h : ∀ q ∈ xs, b < q.1) : sliceIncl xs a b = [] := by
  rw [sliceIncl, List.filter_eq_nil_iff]
  intro p hp
  simp only [decide_eq_true_eq]
  have := h p hp
  omega

/-- On a series with strictly increasing timestamps, widening the
upper bound of a slice only appends points at the end: the narrower
slice is an initial segment of the wider one. -/
theorem sliceIncl_extendsTo (ts : List TimePoint) (a b b' : Nat)
    (hs : List.Pairwise (fun p q : TimePoint => p.1 < q.1) ts)
    (hbb : b ≤ b') :
    extendsTo (sliceIncl ts a b) (sliceIncl ts a b') := by
  induction ts with
  | nil => exact ⟨[], rfl⟩
  | cons x xs ih =>
    obtain ⟨hx, hs'⟩ := List.pairwise_cons.mp hs
    by_cases hxb : a ≤ x.1 ∧ x.1 ≤ b
    · have hxb' : a ≤ x.1 ∧ x.1 ≤ b' := ⟨hxb.1, Nat.le_trans hxb.2 hbb⟩
      obtain ⟨u, hu⟩ := ih hs'
      refine ⟨u, ?_⟩
      simp only [sliceIncl, List.filter_cons, decide_eq_true_eq] at hu ⊢
      rw [if_pos hxb, if_pos hxb', List.cons_append, hu]
    · by_cases hxb' : a ≤ x.1 ∧ x.1 ≤ b'
      · have hgt : b < x.1 := by
          by_contra hle
          exact hxb ⟨hxb'.1, by omega⟩
        have hnil : sliceIncl (x :: xs) a b = [] := by
          rw [sliceIncl, List.filter_eq_nil_iff]
          intro p hp
          simp only [decide_eq_true_eq]
          rcases List.mem_cons.mp hp with hh | hh
          · subst hh; omega
          · have := hx p hh; omega
        exact ⟨sliceIncl (x :: xs) a b', by rw [hnil, List.nil_append]⟩
      · obtain ⟨u, hu⟩ := ih hs'
        refine ⟨u, ?_⟩
        simp only [sliceIncl, List.filter_cons, decide_eq_true_eq] at hu ⊢
        rw [if_neg hxb, if_neg hxb', hu]

/-- Claim C1 (amended).  For a series with strictly increasing
timestamps and any `1 ≤ k ≤ n`: the test cell produces exactly `n`
windows per series; the `k`-th window's slice is
`ts[start : end_training + k*horizon]` and covers the *closed*
interval `[start, end_training + k*horizon]` — pandas label slicing
includes the upper bound, so the window ends inclusively at
`end_training + k*horizon`, not exclusively; and window `k`'s slice is
an initial segment of window `k+1`'s slice. -/
theorem test_windows_spec (ts : List TimePoint) (s e h n k : Nat)
    (hs : List.Pairwise (fun p q : TimePoint => p.1 < q.1) ts)
    (hk1 : 1 ≤ k) (hkn : k ≤ n) :
    (test_window_slices ts s e h n).length = n
    ∧ (test_window_slices ts s e h n)[k - 1]? = some (sliceIncl ts s (e + k * h))
    ∧ (∀ p : TimePoint,
        p ∈ sliceIncl ts s (e + k * h) ↔ p ∈ ts ∧ s ≤ p.1 ∧ p.1 ≤ e + k * h)
    ∧ (k < n →
        extendsTo (sliceIncl ts s (e + k * h)) (sliceIncl ts s (e + (k + 1) * h))) := by
  refine ⟨?_, ?_, ?_, ?_⟩
  · simp [test_window_slices]
  · rw [test_window_slices, List.getElem?_map,
      List.getElem?_range (show k - 1 < n by omega)]
    simp only [Option.map_some']
    rw [show k - 1 + 1 = k from by omega]
  · intro p
    simp [sliceIncl, List.mem_filter, and_assoc]
  · intro _
    refine sliceIncl_extendsTo ts s _ _ hs ?_
    have hmul : k * h ≤ (k + 1) * h := Nat.mul_le_mul_right h (Nat.le_succ k)
    omega

/-- Claim C1 witness: the window-builder theorem applied to a concrete
four-point hourly series with `start = 0`, `end_training = 1`,
`horizon = 1`, `window_count = 2`, `k = 1`. -/
theorem test_windows_spec_witness :
    (test_window_slices exTs 0 1 1 2).length = 2 :=
  (test_windows_spec exTs 0 1 1 2 1 (by decide) (by decide) (by decide)).1

/-- Claim C1, counterexample to the claim as stated: with `start = 0`,
`end_training = 1`, `horizon = 1`, window 1's slice contains the point
at timestamp `2 = end_training + 1*horizon` — the slice ends
*inclusively* at that timestamp, so it does not cover the half-open
interval `[start, end_training + k*horizon)` the claim asserts. -/
theorem test_windows_inclusive_cex :
    (test_window_slices exTs 0 1 1 1).headD []
      = [(0, PVal.fin 1), (1, PVal.fin 2), (2, PVal.fin 3)]
    ∧ (2, PVal.fin 3) ∈ (test_window_slices exTs 0 1 1 1).headD [] := by decide

/-- Claim C7.  For every series and valid bounds `start < end_training`,
the training cell's slice `ts[start : end_training - 1]` selects
exactly the points of the half-open interval `[start, end_training)`:
subtracting one tick before the inclusive pandas slice makes the
cutoff exclusive on the tick grid. -/
theorem training_window_half_open (ts : List TimePoint) (s e : Nat)
    (hv : s < e) :
    training_window_slice ts s e
      = ts.filter (fun p => decide (s ≤ p.1 ∧ p.1 < e)) := by
  unfold training_window_slice sliceIncl
  refine List.filter_congr ?_
  intro p _
  apply decide_eq_decide.mpr
  omega

/-- Claim C7 witness: the training-window theorem at a concrete series
and bounds. -/
theorem training_window_half_open_witness :
    training_window_slice exTs 0 2
      = exTs.filter (fun p => decide (0 ≤ p.1 ∧ p.1 < 2)) :=
  training_window_half_open exTs 0 2 (by decide)

/-- Claim C5 (amended).  The window-building cells perform no bounds
validation and never raise: for `end_training ≤ start` (with
`end_training` positive) the training cell succeeds with an *empty*
window, and the test cell succeeds for every choice of bounds. -/
theorem window_builder_no_validation (ts : List TimePoint) (s e h n : Nat)
    (h1 : 0 < e) (h2 : e ≤ s) :
    build_training_window ts s e = Except.ok []
    ∧ (build_test_windows ts s e h n).isOk = true := by
  constructor
  · have hnil : sliceIncl ts s (e - 1) = [] := by
      rw [sliceIncl, List.filter_eq_nil_iff]
      intro p _
      simp only [decide_eq_true_eq]
      omega
    simp [build_training_window, training_window_slice, hnil]
  · rfl

/-- Claim C5 witness: the no-validation theorem at `start = 10`,
`end_training = 5` on a concrete series. -/
theorem window_builder_no_validation_witness :
    build_training_window exTs 10 5 = Except.ok []
    ∧ (build_test_windows exTs 10 5 1 2).isOk = true :=
  window_builder_no_validation exTs 10 5 1 2 (by decide) (by decide)

/-- Claim C5, counterexample to the claim as stated: with
`start = 10 ≥ end_training = 5` — invalid bounds per the claim — both
cells return windows normally (the training window and both test
windows are simply empty); nothing fails. -/
theorem window_builder_no_error_cex :
    build_training_window exTs 10 5 = Except.ok []
    ∧ build_test_windows exTs 10 5 1 2 = Except.ok [[], []]
    ∧ (build_training_window exTs 10 5).isOk = true := ⟨rfl, rfl, rfl⟩

/-! ## Response decoder (claim C2) -/

/-- The `pd.DataFrame` construction fails when some column's length
differs from the index length. -/
theorem mkDataFrame_error_of_bad_col (cols : List (String × List ℚ))
    (idx : List Nat) (c : String × List ℚ) (hc : c ∈ cols)
    (hlen : c.2.length ≠ idx.length) :
    ∃ msg, mkDataFrame cols idx = Except.error msg := by
  have hcond : ¬ ((cols.all fun c => c.2.length == idx.length) = true) := by
    intro hall
    rw [List.all_eq_true] at hall
    have h2 := hall c hc
    simp only [beq_iff_eq] at h2
    exact hlen h2
  exact ⟨_, by rw [mkDataFrame, if_neg hcond]⟩

/-- A successfully constructed `DataFrame` carries exactly the index
it was given. -/
theorem mkDataFrame_ok_index (cols : List (String × List ℚ))
    (idx : List Nat) (f : Frame) (h : mkDataFrame cols idx = Except.ok f) :
    f.index = idx := by
  rw [mkDataFrame] at h
  by_cases hc : (cols.all fun c => c.2.length == idx.length) = true
  · rw [if_pos hc] at h
    injection h with h2
    rw [← h2]
  · rw [if_neg hc] at h
    exact absurd h (by simp)

/-- Claim C2 (amended).  For every parsed single-window response: a
successful decode returns a frame whose index length is the length of
the *first* quantile array (the derived prediction length); if any
quantile array disagrees in length with the first, the decode fails
(the final `DataFrame` construction raises); and if samples were
requested but the response has *no samples key*, the decode fails (a
`KeyError` on `predictions['samples']`).  A samples key that is
present but holds an empty array is *not* rejected — see the
counterexample. -/
theorem decode_response_validation (p : Pred) (pt : Nat) (rs : Bool) :
    (∀ f, decode_response [p] pt rs = Except.ok f →
        f.index.length = (p.quantiles.map (fun q => q.2.length)).headD 0)
    ∧ (∀ q ∈ p.quantiles,
        q.2.length ≠ (p.quantiles.map (fun q => q.2.length)).headD 0 →
        ∃ msg, decode_response [p] pt rs = Except.error msg)
    ∧ (rs = true → p.samples = none →
        ∃ msg, decode_response [p] pt rs = Except.error msg) := by
  cases hq : p.quantiles with
  | nil =>
    refine ⟨?_, ?_, ?_⟩
    · intro f hf
      simp [decode_response, hq] at hf
    · intro q hqmem
      exact absurd hqmem (List.not_mem_nil q)
    · intro _ _
      exact ⟨"StopIteration", by simp [decode_response, hq]⟩
  | cons q0 qs =>
    have hidx : ∀ n : Nat, ((List.range n).map (fun i => pt + i)).length = n := by
      intro n
      simp
    refine ⟨?_, ?_, ?_⟩
    · intro f hf
      simp only [decode_response, hq] at hf
      simp only [List.map_cons, List.headD_cons]
      cases rs with
      | false =>
        simp only [if_false, Bool.false_eq_true] at hf
        have := mkDataFrame_ok_index _ _ _ hf
        rw [this]
        exact hidx _
      | true =>
        simp only [if_true] at hf
        cases hsam : p.samples with
        | none => rw [hsam] at hf; simp at hf
        | some ss =>
          rw [hsam] at hf
          simp only at hf
          have := mkDataFrame_ok_index _ _ _ hf
          rw [this]
          exact hidx _
    · intro q hqmem hqlen
      simp only [List.map_cons, List.headD_cons] at hqlen
      simp only [decode_response, hq]
      cases rs with
      | false =>
        simp only [if_false, Bool.false_eq_true]
        exact mkDataFrame_error_of_bad_col _ _ q
          (List.mem_append_left _ hqmem) (by rw [hidx]; exact hqlen)
      | true =>
        simp only [if_true]
        cases hsam : p.samples with
        | none => exact ⟨"KeyError: samples", rfl⟩
        | some ss =>
          simp only
          exact mkDataFrame_error_of_bad_col _ _ q
            (List.mem_append_left _ hqmem) (by rw [hidx]; exact hqlen)
    · intro hrs hsam
      subst hrs
      simp only [decode_response, hq, hsam, if_true]
      exact ⟨"KeyError: samples", rfl⟩

/-- Claim C2 witness: the validation theorem applied to a concrete
response with two equal-length quantile arrays, no samples key, and
samples requested — the decode fails. -/
theorem decode_response_validation_witness :
    ∃ msg, decode_response
        [⟨[("0.1", [1]), ("0.5", [2])], none⟩] 0 true = Except.error msg :=
  (decode_response_validation ⟨[("0.1", [1]), ("0.5", [2])], none⟩ 0 true).2.2
    rfl rfl

/-- Claim C2, counterexample to the claim as stated: `include_samples`
was requested and the response contains *no sample arrays* (a samples
key holding an empty array), yet the decoder silently coerces it into
a result frame with only quantile columns instead of failing. -/
theorem decode_response_empty_samples_cex :
    decode_response [⟨[("0.1", [1]), ("0.5", [2])], some []⟩] 0 true
      = Except.ok ⟨[0], [("0.1", [1]), ("0.5", [2])]⟩ := rfl

/-! ## Target encoding (claim C4) -/

/-- Claim C4.  Encoding a target preserves its length; each finite value
is emitted as a JSON number; each non-finite value (NaN, the missing
marker, or an infinity) is emitted as the literal string token
`"NaN"`, never as a numeric literal; and decoding that token
reconstitutes the missing value, which is distinct from zero. -/
theorem encode_target_missing_marker (ts : List PVal) (i : Nat)
    (h : i < ts.length) :
    (encode_target ts).length = ts.length
    ∧ (ts[i].isFinite = true →
        (encode_target ts)[i]? = some (JVal.num ts[i].toRat))
    ∧ (ts[i].isFinite = false →
        (encode_target ts)[i]? = some (JVal.str "NaN"))
    ∧ decode_target_entry (JVal.str "NaN") = PVal.nan
    ∧ PVal.nan ≠ PVal.fin 0 := by
  refine ⟨by simp [encode_target], ?_, ?_, rfl, by decide⟩
  · intro hfin
    rw [encode_target, List.getElem?_map, List.getElem?_eq_getElem h]
    simp [hfin]
  · intro hfin
    rw [encode_target, List.getElem?_map, List.getElem?_eq_getElem h]
    simp [hfin]

/-- Claim C4 witness: the marker theorem applied to the concrete target
`[3, NaN]` at the missing position. -/
theorem encode_target_missing_marker_witness :
    (encode_target [PVal.fin 3, PVal.nan])[1]? = some (JVal.str "NaN") :=
  (encode_target_missing_marker [PVal.fin 3, PVal.nan] 1 (by decide)).2.2.1 rfl

/-! ## Upload guard (claims C8, C9) -/

/-- Every character list starts with itself. -/
theorem charsStartWith_refl (l : List Char) : charsStartWith l l = true := by
  induction l with
  | nil => rfl
  | cons a as ih => simp [charsStartWith, ih]

/-- Claim C8.  When the destination key already exists in the bucket and
`override` was not requested, `copy_to_s3` is a local no-op: the
bucket — including the existing object's contents — is returned
unchanged, and nothing fails (the source prints a warning and
returns). -/
theorem copy_no_overwrite_noop (store : Store) (path : String)
    (body d : List Nat) (hmem : (path, d) ∈ store) :
    copy_to_s3 store path body false = store := by
  have hmem2 : (path, d) ∈ objectsWithKeyStart store path :=
    List.mem_filter.mpr ⟨hmem, charsStartWith_refl _⟩
  have hlen : 0 < (objectsWithKeyStart store path).length :=
    List.length_pos.mpr (List.ne_nil_of_mem hmem2)
  rw [copy_to_s3, if_pos hlen]
  simp

/-- Claim C8 witness: the no-op theorem on a one-object bucket whose
sole key is the destination. -/
theorem copy_no_overwrite_noop_witness :
    copy_to_s3 [("data/train/train.json", [1, 2])] "data/train/train.json"
        [9] false
      = [("data/train/train.json", [1, 2])] :=
  copy_no_overwrite_noop [("data/train/train.json", [1, 2])]
    "data/train/train.json" [9] [1, 2] (List.mem_singleton.mpr rfl)

/-- Claim C9.  The pre-upload existence check is key-*start*-based, not
exact-key: the bucket stores only `data/train.json.bak`, whose key
strictly extends the destination `data/train.json`, yet the upload
with `override=False` is skipped — the bucket is returned unchanged
and the destination key is never written, even though no object with
exactly that key exists. -/
theorem copy_to_s3_prefix_check :
    copy_to_s3 [("data/train.json.bak", [7])] "data/train.json" [1] false
      = [("data/train.json.bak", [7])]
    ∧ ((([("data/train.json.bak", [7])] : Store).map (·.1)).all
        (fun k => !(k == "data/train.json"))) = true := by decide

/-! ## Request encoder truthiness (claim C10) -/

/-- Claim C10.  The method `__encode_request` passes the dynamic features through
Python truthiness (`dynamic_feat if dynamic_feat else None`), so an
empty dynamic-feature list encodes *identically* to an absent one, and
the emitted instance dict carries no `dynamic_feat` key at all in that
case. -/
theorem encode_request_empty_feat (ts : List TimePoint) (cat : Option Int)
    (ns : Int) (rs : Bool) (qs : List String) :
    encode_request ts cat (some []) ns rs qs
      = encode_request ts cat none ns rs qs
    ∧ (((series_to_dict ts cat (pyTruthyFeat (some []))).map (·.1)).all
        (fun k => !(k == "dynamic_feat"))) = true := by
  refine ⟨rfl, ?_⟩
  cases cat with
  | none => simp [series_to_dict, pyTruthyFeat]
  | some c => simp [series_to_dict, pyTruthyFeat]

/-- Claim C10 witness: the truthiness theorem at a concrete window. -/
theorem encode_request_empty_feat_witness :
    encode_request exTs none (some []) 50 false ["0.1", "0.5", "0.9"]
      = encode_request exTs none none 50 false ["0.1", "0.5", "0.9"] :=
  (encode_request_empty_feat exTs none 50 false ["0.1", "0.5", "0.9"]).1

/-! ## Merge/report step (claim C6) -/

/-- Every row the merge emits for key `t` carries timestamp `t`. -/
theorem rowsForKey_key (L : List (Nat × ℚ)) (R : List (Nat × List ℚ))
    (t : Nat) (row : MergedRow) (h : row ∈ rowsForKey L R t) : row.1 = t := by
  cases hls : L.filter (fun l => l.1 == t) with
  | nil =>
    simp only [rowsForKey, hls] at h
    simp only [List.mem_map] at h
    obtain ⟨r, _, hr⟩ := h
    rw [← hr]
  | cons l0 ls =>
    cases hrs : R.filter (fun r => r.1 == t) with
    | nil =>
      simp only [rowsForKey, hls, hrs] at h
      simp only [List.mem_map] at h
      obtain ⟨l, _, hl⟩ := h
      rw [← hl]
    | cons r0 rs =>
      simp only [rowsForKey, hls, hrs] at h
      simp only [List.mem_flatMap, List.mem_map] at h
      obtain ⟨l, _, r, _, hr⟩ := h
      rw [← hr]

/-- Counting rows with key `t` inside the block for key `t'` gives the
whole block when `t' = t` and nothing otherwise. -/
theorem countP_rowsForKey (L : List (Nat × ℚ)) (R : List (Nat × List ℚ))
    (t t' : Nat) :
    (rowsForKey L R t').countP (fun row => row.1 == t)
      = if t' = t then (rowsForKey L R t').length else 0 := by
  by_cases h : t' = t
  · rw [if_pos h, List.countP_eq_length]
    intro row hrow
    have hk := rowsForKey_key L R t' row hrow
    simp [hk, h]
  · rw [if_neg h, List.countP_eq_zero]
    intro row hrow
    have hk := rowsForKey_key L R t' row hrow
    simp [hk, h]

/-- A key absent from the key list contributes no rows. -/
theorem countP_flatMap_zero (keys : List Nat) (L : List (Nat × ℚ))
    (R : List (Nat × List ℚ)) (t : Nat) (ht : t ∉ keys) :
    (keys.flatMap (rowsForKey L R)).countP (fun row => row.1 == t) = 0 := by
  rw [List.countP_eq_zero]
  intro row hrow
  rw [List.mem_flatMap] at hrow
  obtain ⟨k', hk', hrow'⟩ := hrow
  have hkey := rowsForKey_key L R k' row hrow'
  simp only [hkey, beq_iff_eq]
  rintro rfl
  exact ht hk'

/-- Over a duplicate-free key list containing `t`, the merged table
holds exactly the rows of `t`'s block under key `t`. -/
theorem countP_flatMap_nodup (keys : List Nat) (L : List (Nat × ℚ))
    (R : List (Nat × List ℚ)) (t : Nat) (hnd : keys.Nodup) (hmem : t ∈ keys) :
    (keys.flatMap (rowsForKey L R)).countP (fun row => row.1 == t)
      = (rowsForKey L R t).length := by
  induction keys with
  | nil => cases hmem
  | cons k ks ih =>
    rw [List.flatMap_cons, List.countP_append]
    rcases List.mem_cons.mp hmem with rfl | hmem'
    · rw [countP_rowsForKey, if_pos rfl,
        countP_flatMap_zero ks L R t (List.nodup_cons.mp hnd).1, Nat.add_zero]
    · have hne : k ≠ t := by
        rintro rfl
        exact (List.nodup_cons.mp hnd).1 hmem'
      rw [countP_rowsForKey, if_neg hne,
        ih (List.nodup_cons.mp hnd).2 hmem', Nat.zero_add]

/-- When exactly one ground-truth row matches `t`, the merge block for
`t` has one output row per matching forecast row. -/
theorem rowsForKey_length_single (L : List (Nat × ℚ))
    (R : List (Nat × List ℚ)) (t : Nat)
    (hm : (L.filter (fun l => l.1 == t)).length = 1)
    (hn : 0 < (R.filter (fun r => r.1 == t)).length) :
    (rowsForKey L R t).length = (R.filter (fun r => r.1 == t)).length := by
  cases hls : L.filter (fun l => l.1 == t) with
  | nil => rw [hls] at hm; simp at hm
  | cons l0 ls =>
    cases hrs : R.filter (fun r => r.1 == t) with
    | nil => rw [hrs] at hn; simp at hn
    | cons r0 rs =>
      rw [hls] at hm
      simp only [List.length_cons] at hm
      have hls0 : ls = [] := List.eq_nil_of_length_eq_zero (by omega)
      subst hls0
      simp [rowsForKey, hls, hrs]

/-- The sorted union key list of the outer merge is duplicate-free. -/
theorem mergeKeys_nodup (ks : List Nat) :
    (List.insertionSort (· ≤ ·) ks.dedup).Nodup :=
  ((List.perm_insertionSort (· ≤ ·) ks.dedup).nodup_iff).mpr
    (List.nodup_dedup ks)

/-- A list whose elements are all equal is sorted. -/
theorem pairwise_le_of_const (l : List Nat) (k : Nat)
    (h : ∀ x ∈ l, x = k) : List.Pairwise (· ≤ ·) l := by
  induction l with
  | nil => exact List.Pairwise.nil
  | cons a as ih =>
    refine List.Pairwise.cons ?_ (ih fun x hx => h x (List.mem_cons_of_mem a hx))
    intro b hb
    rw [h a (List.mem_cons_self a as), h b (List.mem_cons_of_mem a hb)]

/-- Emitting the per-key blocks over a sorted key list yields a table
whose timestamp column is sorted. -/
theorem pairwise_map_fst_flatMap (keys : List Nat) (L : List (Nat × ℚ))
    (R : List (Nat × List ℚ)) (hs : List.Pairwise (· ≤ ·) keys) :
    List.Pairwise (· ≤ ·) ((keys.flatMap (rowsForKey L R)).map (·.1)) := by
  induction keys with
  | nil => simp
  | cons k ks ih =>
    obtain ⟨hk, hs'⟩ := List.pairwise_cons.mp hs
    rw [List.flatMap_cons, List.map_append, List.pairwise_append]
    refine ⟨?_, ih hs', ?_⟩
    · apply pairwise_le_of_const _ k
      intro x hx
      obtain ⟨row, hrow, hxeq⟩ := List.mem_map.mp hx
      rw [← hxeq]
      exact rowsForKey_key L R k row hrow
    · intro a ha b hb
      obtain ⟨rowa, hrowa, haeq⟩ := List.mem_map.mp ha
      obtain ⟨rowb, hrowb, hbeq⟩ := List.mem_map.mp hb
      obtain ⟨k', hk', hrowb'⟩ := List.mem_flatMap.mp hrowb
      rw [← haeq, ← hbeq, rowsForKey_key L R k rowa hrowa,
        rowsForKey_key L R k' rowb hrowb']
      exact hk k' hk'

/-- The timestamp column of every merged table is sorted ascending:
the row ordering is a fixed, deterministic function of the inputs. -/
theorem mergeOuter_keys_sorted (L : List (Nat × ℚ))
    (R : List (Nat × List ℚ)) :
    List.Pairwise (· ≤ ·) ((mergeOuter L R).map (·.1)) := by
  rw [mergeOuter]
  exact pairwise_map_fst_flatMap _ L R
    (List.sorted_insertionSort (· ≤ ·) _)

/-- Row count at key `t` of the merged table, when the ground truth
holds `t` exactly once and at least one forecast row matches. -/
theorem countKey_mergeOuter_single (L : List (Nat × ℚ))
    (R : List (Nat × List ℚ)) (t : Nat)
    (hm : (L.filter (fun l => l.1 == t)).length = 1)
    (hn : 0 < (R.filter (fun r => r.1 == t)).length) :
    countKey t (mergeOuter L R) = (R.filter (fun r => r.1 == t)).length := by
  have ht : t ∈ List.insertionSort (· ≤ ·)
      ((L.map (·.1) ++ R.map (·.1)).dedup) := by
    rw [(List.perm_insertionSort (· ≤ ·) _).mem_iff, List.mem_dedup,
      List.mem_append]
    right
    obtain ⟨r, hrmem⟩ := List.exists_mem_of_ne_nil
      (R.filter (fun r => r.1 == t))
      (by
        intro hnil
        rw [hnil] at hn
        simp at hn)
    have hr := List.mem_filter.mp hrmem
    exact List.mem_map.mpr ⟨r, hr.1, by simpa using hr.2⟩
  rw [countKey, mergeOuter,
    countP_flatMap_nodup _ L R t (mergeKeys_nodup _) ht,
    rowsForKey_length_single L R t hm hn]

/-- Claim C6.  The merge step is not idempotent: with the ground truth
holding timestamp `t` once and the forecast result holding it at least
once, appending the same result to itself (`right.append(right2)` with
equal frames) and outer-merging doubles the number of rows at `t` —
overlapping timestamps are concatenated, never deduplicated or
overwritten — so the doubled merge differs from the single merge; and
the merged table's row ordering is deterministic: its timestamp column
is sorted ascending by construction. -/
theorem merge_concat_not_idempotent (L : List (Nat × ℚ))
    (R : List (Nat × List ℚ)) (t : Nat)
    (hm : (L.filter (fun l => l.1 == t)).length = 1)
    (hn : 0 < (R.filter (fun r => r.1 == t)).length) :
    countKey t (mergeOuter L (appendRows R R))
      = 2 * countKey t (mergeOuter L R)
    ∧ 0 < countKey t (mergeOuter L R)
    ∧ mergeOuter L (appendRows R R) ≠ mergeOuter L R
    ∧ List.Pairwise (· ≤ ·)
        ((mergeOuter L (appendRows R R)).map (·.1)) := by
  have hRR : ((appendRows R R).filter (fun r => r.1 == t)).length
      = 2 * (R.filter (fun r => r.1 == t)).length := by
    rw [appendRows, List.filter_append, List.length_append]
    omega
  have h1 := countKey_mergeOuter_single L R t hm hn
  have h2 := countKey_mergeOuter_single L (appendRows R R) t hm
    (by rw [hRR]; omega)
  refine ⟨?_, ?_, ?_, mergeOuter_keys_sorted L (appendRows R R)⟩
  · rw [h1, h2, hRR]
  · rw [h1]; exact hn
  · intro hEq
    have hcnt : countKey t (mergeOuter L (appendRows R R))
        = countKey t (mergeOuter L R) := by rw [hEq]
    rw [h1, h2, hRR] at hcnt
    omega

/-- Claim C6 witness: the non-idempotence theorem on a two-point ground
truth and a one-row forecast frame merged twice. -/
theorem merge_concat_not_idempotent_witness :
    countKey 1 (mergeOuter [(0, 100), (1, 101)]
        (appendRows [(1, [9])] [(1, [9])]))
      = 2 * countKey 1 (mergeOuter [(0, 100), (1, 101)] [(1, [9])]) :=
  (merge_concat_not_idempotent [(0, 100), (1, 101)] [(1, [9])] 1
    (by decide) (by decide)).1

end FDI
